import Mathlib

/-!
Verification of the inventory/POS back office (Express + Prisma, `src/index.js`).

The relational store is modelled as an explicit `DB` state; each HTTP route
that the claims reference becomes a pure function `DB → input → Except ApiErr (DB × result)`.
Record ids generated by the store (cuids) are modelled as naturals drawn from a
fresh-id counter; invoice numbers stay strings, built exactly as the JS template
literal builds them.  All error paths in the source leave the store untouched
(validation happens before the transaction, and a failed transaction rolls
back), so an operation that errors returns the unchanged state.
-/

namespace POS

/-- A row of the `Product` table. -/
structure Product where
  id : Nat
  name : String
  category : String
  unit : String
  costPrice : Int
  sellPrice : Int
  stockQty : Int
  minStock : Int
  isActive : Bool
deriving Repr, DecidableEq

/-- A row of the `StockMovement` table (append-only ledger). -/
structure StockMovement where
  productId : Nat
  type : String
  qty : Int
  reason : String
  refId : Option Nat
  unitCost : Option Int
  note : Option String
  userId : String
deriving Repr, DecidableEq

/-- A row of the `Sale` table. -/
structure Sale where
  id : Nat
  invoiceNo : String
  customerId : Option Nat
  grandTotal : Int
  amountPaid : Int
  paymentStatus : String
  note : Option String
deriving Repr, DecidableEq

/-- A row of the `SaleItem` table. -/
structure SaleItem where
  saleId : Nat
  productId : Nat
  qty : Int
  unitPrice : Int
  lineTotal : Int
deriving Repr, DecidableEq

/-- A row of the `Payment` table. -/
structure Payment where
  saleId : Nat
  amount : Int
  method : String
  refNo : Option String
deriving Repr, DecidableEq

/-- The whole relational store, plus the PostgreSQL sequence `inv_global_seq`
(`invSeq` = number of `nextval` calls made so far, so `nextval` returns
`invSeq + 1`) and the fresh-id counter standing for cuid generation. -/
structure DB where
  products : List Product
  sales : List Sale
  saleItems : List SaleItem
  payments : List Payment
  movements : List StockMovement
  invSeq : Nat
  idCtr : Nat
deriving Repr, DecidableEq

def DB.empty : DB := ⟨[], [], [], [], [], 0, 0⟩

/-- Errors surfaced by the routes (validation = zod failure / 400). -/
inductive ApiErr where
  | validation
  | productNotFound
  | insufficientStock (name : String)
  | saleNotFound
  | overpayment
  | notFound
deriving Repr, DecidableEq

/-! ### POST /api/v1/products -/

/-- Body of `POST /api/v1/products` (after JSON parsing). -/
structure ProductInput where
  name : String
  category : String
  unit : String
  costPrice : Int
  sellPrice : Int
  stockQty : Int
  minStock : Int
  isActive : Bool
deriving Repr, DecidableEq

/-- The zod schema of `POST /api/v1/products`. -/
def productCreateValid (i : ProductInput) : Bool :=
  decide (1 ≤ i.name.length) &&
  (i.category == "Pupuk" || i.category == "Obat") &&
  (i.unit == "sak" || i.unit == "ml" || i.unit == "liter" || i.unit == "kg") &&
  decide (0 ≤ i.costPrice) && decide (0 ≤ i.sellPrice) &&
  decide (0 ≤ i.stockQty) && decide (0 ≤ i.minStock)

/-- `POST /api/v1/products`: create a product with the given initial
`stockQty`; the route forces `isActive := true` and writes no stock movement. -/
def createProduct (db : DB) (i : ProductInput) : Except ApiErr (DB × Product) :=
  if productCreateValid i then
    let p : Product :=
      { id := db.idCtr, name := i.name, category := i.category, unit := i.unit,
        costPrice := i.costPrice, sellPrice := i.sellPrice, stockQty := i.stockQty,
        minStock := i.minStock, isActive := true }
    .ok ({ db with products := p :: db.products, idCtr := db.idCtr + 1 }, p)
  else .error .validation

/-! ### PUT /api/v1/products/:id -/

/-- Body of `PUT /api/v1/products/:id`: the route passes `req.body` straight to
the ORM with no schema, so any subset of the product's columns may be set. -/
structure ProductUpdate where
  name : Option String
  category : Option String
  unit : Option String
  costPrice : Option Int
  sellPrice : Option Int
  stockQty : Option Int
  minStock : Option Int
  isActive : Option Bool
deriving Repr, DecidableEq

def applyProductUpdate (u : ProductUpdate) (p : Product) : Product :=
  { p with
    name := u.name.getD p.name, category := u.category.getD p.category,
    unit := u.unit.getD p.unit, costPrice := u.costPrice.getD p.costPrice,
    sellPrice := u.sellPrice.getD p.sellPrice, stockQty := u.stockQty.getD p.stockQty,
    minStock := u.minStock.getD p.minStock, isActive := u.isActive.getD p.isActive }

/-- `PUT /api/v1/products/:id`. -/
def updateProduct (db : DB) (pid : Nat) (u : ProductUpdate) : Except ApiErr (DB × Product) :=
  match db.products.find? (fun p => p.id == pid) with
  | none => .error .notFound
  | some p =>
    .ok ({ db with
            products := db.products.map
              (fun q => if q.id == pid then applyProductUpdate u q else q) },
         applyProductUpdate u p)

/-- `DELETE /api/v1/products/:id`: soft delete, flips `isActive` only. -/
def deleteProduct (db : DB) (pid : Nat) : Except ApiErr DB :=
  match db.products.find? (fun p => p.id == pid) with
  | none => .error .notFound
  | some _ =>
    .ok { db with
          products := db.products.map
            (fun q => if q.id == pid then { q with isActive := false } else q) }

/-! ### POST /api/v1/products/:id/add-stock -/

/-- Body of `POST /api/v1/products/:id/add-stock`. -/
structure AddStockInput where
  qty : Int
  unitCost : Option Int
  note : Option String
deriving Repr, DecidableEq

/-- The zod schema of add-stock: positive qty, optional nonnegative unit cost. -/
def addStockValid (i : AddStockInput) : Bool :=
  decide (1 ≤ i.qty) &&
  (match i.unitCost with | none => true | some c => decide (0 ≤ c))

/-- `POST /api/v1/products/:id/add-stock`: in one transaction, increment the
product's `stockQty` by `qty` and append exactly one IN movement of the same
quantity with reason `"StockIn"`. -/
def addStock (db : DB) (pid : Nat) (i : AddStockInput) (userId : String) :
    Except ApiErr (DB × Product) :=
  if addStockValid i then
    match db.products.find? (fun p => p.id == pid) with
    | none => .error .notFound
    | some p =>
      .ok ({ db with
              products := db.products.map
                (fun q => if q.id == pid then { q with stockQty := q.stockQty + i.qty } else q),
              movements :=
                { productId := pid, type := "IN", qty := i.qty, reason := "StockIn",
                  refId := none, unitCost := i.unitCost, note := i.note,
                  userId := userId } :: db.movements },
           { p with stockQty := p.stockQty + i.qty })
  else .error .validation

/-! ### Invoice numbers

`nextInvoiceNoSeq` builds `` `INV-${period}-${String(seq).padStart(6, "0")}` ``
where `period = `${year}${String(month + 1).padStart(2, "0")}`` and `seq` comes
from `nextval('inv_global_seq')`.  We model JS decimal rendering of a natural
number with an explicitly fuelled (hence structurally recursive) digit list. -/

/-- Little-endian base-10 digits with fuel (`natDigitsAux n n` is enough fuel). -/
def natDigitsAux : Nat → Nat → List Nat
  | 0, _ => []
  | _ + 1, 0 => []
  | fuel + 1, n + 1 => ((n + 1) % 10) :: natDigitsAux fuel ((n + 1) / 10)

/-- Little-endian base-10 digits of `n` (empty for 0). -/
def natDigits (n : Nat) : List Nat := natDigitsAux n n

/-- JS `String(n)` for a natural `n`: big-endian decimal characters. -/
def jsNatChars (n : Nat) : List Char :=
  if n = 0 then ['0'] else ((natDigits n).map Nat.digitChar).reverse

/-- JS `String.prototype.padStart(w, c)` on a char list. -/
def padStart (w : Nat) (c : Char) (s : List Char) : List Char :=
  List.replicate (w - s.length) c ++ s

/-- The `YYYYMM` period string: `` `${year}${String(month0 + 1).padStart(2, "0")}` ``
(`month0` is JS `getMonth()`, 0-based). -/
def periodOf (year month0 : Nat) : String :=
  ⟨jsNatChars year ++ padStart 2 '0' (jsNatChars (month0 + 1))⟩

/-- `` `INV-${period}-${String(seq).padStart(6, "0")}` ``. -/
def mkInvoiceNo (period : String) (seq : Nat) : String :=
  ⟨"INV-".data ++ period.data ++ '-' :: padStart 6 '0' (jsNatChars seq)⟩

/-- Recover the sequence number from an invoice string: decode the token after
the rightmost `'-'` as a decimal numeral. -/
def invSeqOf (s : String) : Nat :=
  Nat.ofDigits 10 ((s.data.reverse.takeWhile (fun c => c != '-')).map (fun c => c.toNat - 48))

/-! ### POST /api/v1/sales -/

/-- One element of the request's `items` array. -/
structure SaleLine where
  productId : Nat
  qty : Int
deriving Repr, DecidableEq

/-- Body of `POST /api/v1/sales`. -/
structure SaleReq where
  customerId : Option Nat
  note : Option String
  items : List SaleLine
  amountPaid : Int
  method : String
deriving Repr, DecidableEq

def methodValid (m : String) : Bool :=
  m == "Tunai" || m == "Transfer" || m == "QRIS"

/-- The zod schema of `POST /api/v1/sales`: each line needs a positive integer
qty, `amountPaid` is a nonnegative integer (default 0), method is one of the
three values.  The `items` array itself has no minimum length. -/
def saleReqValid (r : SaleReq) : Bool :=
  r.items.all (fun i => decide (1 ≤ i.qty)) &&
  decide (0 ≤ r.amountPaid) && methodValid r.method

/-- `calcStatus(paid, total)` from the source. -/
def calcStatus (paid total : Int) : String :=
  if total ≤ paid then "Lunas" else if 0 < paid then "Sebagian" else "Piutang"

/-- The computed shape of one sale line (`{...i, unitPrice, lineTotal}`). -/
structure CalcItem where
  productId : Nat
  qty : Int
  unitPrice : Int
  lineTotal : Int
deriving Repr, DecidableEq

/-- The `payload.items.map(...)` body: resolve the product, check stock, and
price the line server-side; the first offending line's error wins. -/
def calcItemsAux (products : List Product) : List SaleLine → Except ApiErr (List CalcItem)
  | [] => .ok []
  | i :: rest =>
    match products.find? (fun pp => pp.id == i.productId) with
    | none => .error .productNotFound
    | some p =>
      if p.stockQty < i.qty then .error (.insufficientStock p.name)
      else
        match calcItemsAux products rest with
        | .error e => .error e
        | .ok tail =>
          .ok ({ productId := i.productId, qty := i.qty, unitPrice := p.sellPrice,
                 lineTotal := p.sellPrice * i.qty } :: tail)

/-- The body of the `prisma.$transaction` of `POST /api/v1/sales`, applied once
validation and stock checks have produced the priced lines `cs`: allocate
`nextval('inv_global_seq')`, insert the sale with its items, decrement each
line's product stock while appending one OUT movement per line, and record one
initial payment when `amountPaid > 0`. -/
def saleTxn (db : DB) (r : SaleReq) (year month0 : Nat) (userId : String)
    (cs : List CalcItem) : DB × Sale :=
  let grandTotal := (cs.map (·.lineTotal)).sum
  let seq := db.invSeq + 1
  let sid := db.idCtr
  let s : Sale :=
    { id := sid, invoiceNo := mkInvoiceNo (periodOf year month0) seq,
      customerId := r.customerId, grandTotal := grandTotal,
      amountPaid := r.amountPaid, paymentStatus := calcStatus r.amountPaid grandTotal,
      note := r.note }
  ({ db with
      sales := s :: db.sales,
      saleItems :=
        cs.map (fun c =>
          { saleId := sid, productId := c.productId, qty := c.qty,
            unitPrice := c.unitPrice, lineTotal := c.lineTotal }) ++ db.saleItems,
      products :=
        cs.foldl (fun acc c =>
          acc.map (fun q =>
            if q.id == c.productId then { q with stockQty := q.stockQty - c.qty } else q))
          db.products,
      movements :=
        cs.map (fun c =>
          { productId := c.productId, type := "OUT", qty := c.qty, reason := "Sale",
            refId := some sid, unitCost := none, note := none,
            userId := userId }) ++ db.movements,
      payments :=
        (if 0 < r.amountPaid then
          [{ saleId := sid, amount := r.amountPaid, method := r.method, refNo := none }]
        else []) ++ db.payments,
      invSeq := seq, idCtr := db.idCtr + 1 }, s)

/-- `POST /api/v1/sales`.  Validation and stock checks happen before the
transaction (`saleTxn`). -/
def createSale (db : DB) (r : SaleReq) (year month0 : Nat) (userId : String) :
    Except ApiErr (DB × Sale) :=
  if saleReqValid r then
    let ids := r.items.map (·.productId)
    let products := db.products.filter (fun p => ids.contains p.id)
    if products.length ≠ ids.length then .error .productNotFound
    else
      match calcItemsAux products r.items with
      | .error e => .error e
      | .ok cs => .ok (saleTxn db r year month0 userId cs)
  else .error .validation

/-! ### POST /api/v1/payments -/

/-- Body of `POST /api/v1/payments`. -/
structure PaymentReq where
  saleId : Nat
  amount : Int
  method : String
  refNo : Option String
deriving Repr, DecidableEq

/-- The zod schema of `POST /api/v1/payments`. -/
def paymentReqValid (r : PaymentReq) : Bool :=
  decide (1 ≤ r.amount) && methodValid r.method

/-- Sum of the Payment rows that reference sale `sid`. -/
def paySum (db : DB) (sid : Nat) : Int :=
  ((db.payments.filter (fun p => p.saleId == sid)).map (·.amount)).sum

/-- `POST /api/v1/payments`: recompute `paid` from the Payment rows, reject if
`amount > grandTotal - paid`, otherwise append the Payment row and update the
sale's `amountPaid`/`paymentStatus` in one transaction. -/
def applyPayment (db : DB) (r : PaymentReq) : Except ApiErr (DB × Payment) :=
  if paymentReqValid r then
    match db.sales.find? (fun s => s.id == r.saleId) with
    | none => .error .saleNotFound
    | some sale =>
      let paid := paySum db r.saleId
      if sale.grandTotal - paid < r.amount then .error .overpayment
      else
        let newPaid := paid + r.amount
        let newStatus := if sale.grandTotal ≤ newPaid then "Lunas" else "Sebagian"
        .ok ({ db with
                payments :=
                  { saleId := r.saleId, amount := r.amount, method := r.method,
                    refNo := r.refNo } :: db.payments,
                sales := db.sales.map (fun s =>
                  if s.id == sale.id then
                    { s with amountPaid := newPaid, paymentStatus := newStatus }
                  else s) },
             { saleId := r.saleId, amount := r.amount, method := r.method, refNo := r.refNo })
  else .error .validation

/-! ### Traces

A trace is a sequence of requests applied to the store.  A request that errors
leaves the store unchanged (rollback / validation before writes).
`Op.saleAborted` models a sale transaction that rolled back after allocating
`nextval`: a PostgreSQL sequence does not roll back, so only `invSeq` advances
(numbering gaps are possible, duplicates are not). -/
inductive Op where
  | createProduct (i : ProductInput)
  | updateProduct (pid : Nat) (u : ProductUpdate)
  | deleteProduct (pid : Nat)
  | addStock (pid : Nat) (i : AddStockInput) (userId : String)
  | createSale (r : SaleReq) (year month0 : Nat) (userId : String)
  | applyPayment (r : PaymentReq)
  | saleAborted
deriving Repr, DecidableEq

def stepOp (db : DB) : Op → DB
  | .createProduct i =>
    match createProduct db i with | .ok (db', _) => db' | .error _ => db
  | .updateProduct pid u =>
    match updateProduct db pid u with | .ok (db', _) => db' | .error _ => db
  | .deleteProduct pid =>
    match deleteProduct db pid with | .ok db' => db' | .error _ => db
  | .addStock pid i userId =>
    match addStock db pid i userId with | .ok (db', _) => db' | .error _ => db
  | .createSale r y m userId =>
    match createSale db r y m userId with | .ok (db', _) => db' | .error _ => db
  | .applyPayment r =>
    match applyPayment db r with | .ok (db', _) => db' | .error _ => db
  | .saleAborted => { db with invSeq := db.invSeq + 1 }

/-- Run a trace from the empty store. -/
def execTrace (t : List Op) : DB := t.foldl stepOp DB.empty

/-- A store state is reachable if some trace produces it. -/
def Reachable (db : DB) : Prop := ∃ t, execTrace t = db

/-! ### Decoding invoice numbers -/

theorem natDigitsAux_eq : ∀ (fuel n : Nat), n ≤ fuel → natDigitsAux fuel n = Nat.digits 10 n
  | 0, 0, _ => by simp [natDigitsAux]
  | fuel + 1, 0, _ => by simp [natDigitsAux]
  | fuel + 1, n + 1, h => by
    rw [natDigitsAux, Nat.digits_def' (b := 10) (by norm_num) (Nat.succ_pos n)]
    have hlt : (n + 1) / 10 < n + 1 := Nat.div_lt_self (Nat.succ_pos n) (by norm_num)
    rw [natDigitsAux_eq fuel ((n + 1) / 10) (by omega)]

theorem ofDigits_natDigits (n : Nat) : Nat.ofDigits 10 (natDigits n) = n := by
  rw [natDigits, natDigitsAux_eq n n le_rfl, Nat.ofDigits_digits]

theorem natDigits_lt (n : Nat) : ∀ d ∈ natDigits n, d < 10 := by
  intro d hd
  rw [natDigits, natDigitsAux_eq n n le_rfl] at hd
  exact Nat.digits_lt_base (by norm_num) hd

theorem digitChar_toNat (d : Nat) (h : d < 10) : (Nat.digitChar d).toNat - 48 = d := by
  interval_cases d <;> rfl

theorem digitChar_ne_dash (d : Nat) (h : d < 10) : (Nat.digitChar d != '-') = true := by
  interval_cases d <;> rfl

theorem jsNatChars_ne_dash (n : Nat) : ∀ c ∈ jsNatChars n, (c != '-') = true := by
  intro c hc
  rw [jsNatChars] at hc
  split at hc
  · simp at hc; subst hc; rfl
  · rw [List.mem_reverse, List.mem_map] at hc
    obtain ⟨d, hd, rfl⟩ := hc
    exact digitChar_ne_dash d (natDigits_lt n d hd)

theorem takeWhile_append_of_pos (p : Char → Bool) (a b : List Char)
    (h : ∀ c ∈ a, p c = true) : (a ++ b).takeWhile p = a ++ b.takeWhile p := by
  induction a with
  | nil => simp
  | cons x xs ih =>
    simp only [List.cons_append, List.takeWhile_cons, h x (by simp), if_true]
    rw [ih (fun c hc => h c (by simp [hc]))]

theorem ofDigits_append_zeros (l : List Nat) (k : Nat) :
    Nat.ofDigits 10 (l ++ List.replicate k 0) = Nat.ofDigits 10 l := by
  induction l with
  | nil =>
    simp only [List.nil_append, Nat.ofDigits_nil]
    induction k with
    | zero => simp [Nat.ofDigits_nil]
    | succ m ih => simpa [List.replicate_succ, Nat.ofDigits_cons] using ih
  | cons x xs ih => simp [Nat.ofDigits_cons, ih]

/-- Decoding the reversed padded decimal token recovers `seq`. -/
theorem decode_padded (seq : Nat) :
    Nat.ofDigits 10 ((padStart 6 '0' (jsNatChars seq)).reverse.map (fun c => c.toNat - 48)) =
      seq := by
  rw [padStart, List.reverse_append, List.map_append]
  by_cases h0 : seq = 0
  · subst h0; decide
  · have h1 : ((jsNatChars seq).reverse.map (fun c => c.toNat - 48)) = natDigits seq := by
      rw [jsNatChars, if_neg h0, List.reverse_reverse, List.map_map]
      have : ∀ d ∈ natDigits seq, ((fun c => c.toNat - 48) ∘ Nat.digitChar) d = d := by
        intro d hd; exact digitChar_toNat d (natDigits_lt seq d hd)
      exact (List.map_congr_left this).trans (List.map_id _)
    have h2 : ((List.replicate (6 - (jsNatChars seq).length) '0').reverse.map
        (fun c => c.toNat - 48)) = List.replicate (6 - (jsNatChars seq).length) 0 := by
      rw [List.reverse_replicate, List.map_replicate]
      rfl
    rw [h1, h2, ofDigits_append_zeros, ofDigits_natDigits]

theorem padStart_ne_dash (seq : Nat) :
    ∀ c ∈ padStart 6 '0' (jsNatChars seq), (c != '-') = true := by
  intro c hc
  rw [padStart, List.mem_append] at hc
  rcases hc with h | h
  · rw [List.mem_replicate] at h
    rw [h.2]; rfl
  · exact jsNatChars_ne_dash seq c h

/-- The sequence number is recoverable from the invoice string, whatever the
period component is. -/
theorem invSeqOf_mkInvoiceNo (period : String) (seq : Nat) :
    invSeqOf (mkInvoiceNo period seq) = seq := by
  show Nat.ofDigits 10
    (((("INV-".data ++ period.data ++ '-' :: padStart 6 '0' (jsNatChars seq)).reverse).takeWhile
      (fun c => c != '-')).map (fun c => c.toNat - 48)) = seq
  rw [List.reverse_append, List.reverse_append, List.reverse_cons, List.append_assoc,
    takeWhile_append_of_pos _ _ _ (by
      intro c hc
      exact padStart_ne_dash seq c (List.mem_reverse.mp hc))]
  rw [List.singleton_append, List.takeWhile_cons]
  simp only [show (('-' : Char) != '-') = false from rfl, Bool.false_eq_true, if_false,
    List.append_nil]
  exact decode_padded seq

/-! ### Characterizing the sale computation -/

/-- What a successful `calcItemsAux` run guarantees, line by line. -/
theorem calcItemsAux_ok (products : List Product) :
    ∀ {items : List SaleLine} {l : List CalcItem},
    calcItemsAux products items = .ok l →
    List.Forall₂ (fun (i : SaleLine) (c : CalcItem) =>
      ∃ p, products.find? (fun pp => pp.id == i.productId) = some p ∧
        i.qty ≤ p.stockQty ∧
        c = ⟨i.productId, i.qty, p.sellPrice, p.sellPrice * i.qty⟩) items l := by
  intro items
  induction items with
  | nil =>
    intro l h
    rw [calcItemsAux] at h
    cases h
    exact List.Forall₂.nil
  | cons i rest ih =>
    intro l h
    rw [calcItemsAux] at h
    split at h
    · exact absurd h (by simp)
    · rename_i p hf
      split at h
      · exact absurd h (by simp)
      · rename_i hstock
        split at h
        · exact absurd h (by simp)
        · rename_i tail ht
          cases h
          exact List.Forall₂.cons ⟨p, hf, by omega, rfl⟩ (ih ht)

/-- When every line's product resolves inside `products` and some line wants
more than the resolved stock, `calcItemsAux` fails with `insufficientStock`
naming a product that is genuinely short. -/
theorem calcItemsAux_insufficient (products : List Product) :
    ∀ (items : List SaleLine),
    (∀ i ∈ items, ∃ p ∈ products, p.id = i.productId) →
    (∃ i ∈ items, ∀ p ∈ products, p.id = i.productId → p.stockQty < i.qty) →
    ∃ p i, p ∈ products ∧ i ∈ items ∧ p.id = i.productId ∧ p.stockQty < i.qty ∧
      calcItemsAux products items = .error (.insufficientStock p.name) := by
  intro items
  induction items with
  | nil => rintro _ ⟨i, hi, -⟩; exact absurd hi (by simp)
  | cons i rest ih =>
    intro hres hbad
    obtain ⟨q, hq⟩ : ∃ q, products.find? (fun pp => pp.id == i.productId) = some q := by
      obtain ⟨p, hp, hpid⟩ := hres i (by simp)
      have : (products.find? (fun pp => pp.id == i.productId)).isSome := by
        rw [List.find?_isSome]
        exact ⟨p, hp, by simp [hpid]⟩
      exact Option.isSome_iff_exists.mp this
    have hqmem : q ∈ products := List.mem_of_find?_eq_some hq
    have hqid : q.id = i.productId := by
      have := List.find?_some hq
      simpa using this
    by_cases hshort : q.stockQty < i.qty
    · refine ⟨q, i, hqmem, by simp, hqid, hshort, ?_⟩
      simp only [calcItemsAux, hq]
      rw [if_pos hshort]
    · obtain ⟨j, hj, hjbad⟩ := hbad
      have hjrest : j ∈ rest := by
        rcases List.mem_cons.mp hj with h | h
        · subst h; exact absurd (hjbad q hqmem hqid) hshort
        · exact h
      obtain ⟨p, j', hp, hj', hpid, hplt, herr⟩ :=
        ih (fun x hx => hres x (by simp [hx])) ⟨j, hjrest, hjbad⟩
      refine ⟨p, j', hp, by simp [hj'], hpid, hplt, ?_⟩
      simp only [calcItemsAux, hq]
      rw [if_neg hshort, herr]

/-- Inversion of a successful `createSale`. -/
theorem createSale_ok_elim {db : DB} {r : SaleReq} {y m : Nat} {u : String} {out : DB × Sale}
    (h : createSale db r y m u = .ok out) :
    ∃ cs, saleReqValid r = true ∧
      (db.products.filter (fun p => (r.items.map (·.productId)).contains p.id)).length =
        (r.items.map (·.productId)).length ∧
      calcItemsAux (db.products.filter (fun p => (r.items.map (·.productId)).contains p.id))
        r.items = .ok cs ∧
      out = saleTxn db r y m u cs := by
  rw [createSale] at h
  split at h
  · rename_i hv
    dsimp only at h
    split at h
    · exact absurd h (by simp)
    · rename_i hlen
      split at h
      · exact absurd h (by simp)
      · rename_i cs hc
        cases h
        exact ⟨cs, hv, by omega, hc, rfl⟩
  · exact absurd h (by simp)

/-! ### Sums over the Payment and StockMovement tables -/

/-- Sum of payment amounts for sale `sid` in a payment list. -/
def paySumL (pays : List Payment) (sid : Nat) : Int :=
  ((pays.filter (fun p => p.saleId == sid)).map (·.amount)).sum

theorem paySumL_append (a b : List Payment) (sid : Nat) :
    paySumL (a ++ b) sid = paySumL a sid + paySumL b sid := by
  simp [paySumL, List.filter_append]

theorem paySumL_cons (p : Payment) (rest : List Payment) (sid : Nat) :
    paySumL (p :: rest) sid =
      (if p.saleId = sid then p.amount else 0) + paySumL rest sid := by
  by_cases h : p.saleId = sid <;> simp [paySumL, List.filter_cons, h]

theorem paySumL_zero (l : List Payment) (sid : Nat) (h : ∀ p ∈ l, p.saleId ≠ sid) :
    paySumL l sid = 0 := by
  rw [paySumL, List.filter_eq_nil_iff.mpr (by intro p hp; simp [h p hp])]
  rfl

theorem paySum_eq_paySumL (db : DB) (sid : Nat) : paySum db sid = paySumL db.payments sid := rfl

/-- Sum of movement quantities of kind `ty` for product `pid`. -/
def moveSumL (ms : List StockMovement) (ty : String) (pid : Nat) : Int :=
  ((ms.filter (fun mv => mv.productId == pid && mv.type == ty)).map (·.qty)).sum

theorem moveSumL_append (a b : List StockMovement) (ty : String) (pid : Nat) :
    moveSumL (a ++ b) ty pid = moveSumL a ty pid + moveSumL b ty pid := by
  simp [moveSumL, List.filter_append]

theorem moveSumL_cons (mv : StockMovement) (rest : List StockMovement) (ty : String) (pid : Nat) :
    moveSumL (mv :: rest) ty pid =
      (if mv.productId = pid ∧ mv.type = ty then mv.qty else 0) + moveSumL rest ty pid := by
  by_cases h1 : mv.productId = pid
  · by_cases h2 : mv.type = ty <;> simp [moveSumL, List.filter_cons, h1, h2]
  · simp [moveSumL, List.filter_cons, h1]

theorem moveSumL_zero (l : List StockMovement) (ty : String) (pid : Nat)
    (h : ∀ mv ∈ l, mv.productId ≠ pid) : moveSumL l ty pid = 0 := by
  rw [moveSumL, List.filter_eq_nil_iff.mpr (by intro mv hmv; simp [h mv hmv])]
  rfl

/-- Sum of IN movement quantities for product `pid`. -/
def inSum (db : DB) (pid : Nat) : Int := moveSumL db.movements "IN" pid

/-- Sum of OUT movement quantities for product `pid`. -/
def outSum (db : DB) (pid : Nat) : Int := moveSumL db.movements "OUT" pid

/-! ### The stock decrement loop -/

/-- Total quantity the priced lines `cs` take from product `pid`. -/
def qtySumFor (cs : List CalcItem) (pid : Nat) : Int :=
  ((cs.filter (fun c => c.productId == pid)).map (·.qty)).sum

theorem qtySumFor_cons (c : CalcItem) (cs : List CalcItem) (pid : Nat) :
    qtySumFor (c :: cs) pid =
      (if c.productId = pid then c.qty else 0) + qtySumFor cs pid := by
  by_cases h : c.productId = pid <;> simp [qtySumFor, List.filter_cons, h]

/-- The per-line stock decrement loop of the sale transaction is a single
per-product decrement by the total sold quantity. -/
theorem foldl_decr (cs : List CalcItem) (ps : List Product) :
    cs.foldl (fun acc c => acc.map (fun q =>
      if q.id == c.productId then { q with stockQty := q.stockQty - c.qty } else q)) ps
    = ps.map (fun q => { q with stockQty := q.stockQty - qtySumFor cs q.id }) := by
  induction cs generalizing ps with
  | nil =>
    simp only [List.foldl_nil, qtySumFor, List.filter_nil, List.map_nil, List.sum_nil, sub_zero]
    exact (List.map_id ps).symm
  | cons c cs ih =>
    rw [List.foldl_cons, ih, List.map_map]
    apply List.map_congr_left
    intro q _
    simp only [Function.comp_apply]
    by_cases hid : q.id = c.productId
    · rw [if_pos (by simp [hid]), qtySumFor_cons]
      simp [hid, sub_sub]
    · rw [if_neg (by simp [hid]), qtySumFor_cons, if_neg (fun hh => hid hh.symm)]
      simp

/-! ### The settlement-status invariant -/

/-- The three-way settlement rule the persisted status satisfies.  When
`grandTotal = 0` (reachable: empty items list, or zero sell prices) and
`amountPaid = 0`, `calcStatus` yields Paid, so the Unpaid arm also demands
`0 < grandTotal`. -/
def statusOk (s : Sale) : Prop :=
  (s.paymentStatus = "Lunas" ↔ s.grandTotal ≤ s.amountPaid) ∧
  (s.paymentStatus = "Sebagian" ↔ 0 < s.amountPaid ∧ s.amountPaid < s.grandTotal) ∧
  (s.paymentStatus = "Piutang" ↔ s.amountPaid = 0 ∧ 0 < s.grandTotal)

theorem statusOk_calcStatus (s : Sale)
    (hst : s.paymentStatus = calcStatus s.amountPaid s.grandTotal)
    (h0 : 0 ≤ s.amountPaid) : statusOk s := by
  unfold statusOk
  rw [hst, calcStatus]
  split_ifs with h1 h2
  · exact ⟨iff_of_true rfl h1, iff_of_false (by decide) (by omega),
      iff_of_false (by decide) (by omega)⟩
  · exact ⟨iff_of_false (by decide) (by omega), iff_of_true rfl (by omega),
      iff_of_false (by decide) (by omega)⟩
  · exact ⟨iff_of_false (by decide) (by omega), iff_of_false (by decide) (by omega),
      iff_of_true rfl (by omega)⟩

/-! ### The reachable-state invariant -/

/-- Structural and semantic invariants of every reachable store state. -/
structure Inv (db : DB) : Prop where
  prodIds : ∀ p ∈ db.products, p.id < db.idCtr
  saleIds : ∀ s ∈ db.sales, s.id < db.idCtr
  prodNodup : (db.products.map Product.id).Nodup
  saleNodup : (db.sales.map Sale.id).Nodup
  payRef : ∀ pay ∈ db.payments, pay.saleId < db.idCtr
  moveRef : ∀ mv ∈ db.movements, mv.productId < db.idCtr
  itemRef : ∀ it ∈ db.saleItems, it.saleId < db.idCtr
  payPos : ∀ pay ∈ db.payments, 1 ≤ pay.amount
  paidNonneg : ∀ s ∈ db.sales, 0 ≤ s.amountPaid
  paySumEq : ∀ s ∈ db.sales, s.amountPaid = paySumL db.payments s.id
  status : ∀ s ∈ db.sales, statusOk s
  invoiceBound : ∀ s ∈ db.sales, invSeqOf s.invoiceNo ≤ db.invSeq
  invoiceDistinct : db.sales.Pairwise (fun a b => invSeqOf a.invoiceNo ≠ invSeqOf b.invoiceNo)

theorem inv_empty : Inv DB.empty := by
  constructor <;> simp [DB.empty]

theorem map_map_eq {α β : Type} (f : α → α) (g : α → β) (l : List α)
    (h : ∀ x, g (f x) = g x) : (l.map f).map g = l.map g := by
  rw [List.map_map]
  exact List.map_congr_left fun x _ => h x

theorem upd_id (u : ProductUpdate) (pid : Nat) (q : Product) :
    (if q.id == pid then applyProductUpdate u q else q).id = q.id := by
  by_cases h : q.id == pid <;> simp [h, applyProductUpdate]

theorem del_id (pid : Nat) (q : Product) :
    (if q.id == pid then { q with isActive := false } else q).id = q.id := by
  by_cases h : q.id == pid <;> simp [h]

theorem stock_id (pid : Nat) (d : Int) (q : Product) :
    (if q.id == pid then { q with stockQty := q.stockQty + d } else q).id = q.id := by
  by_cases h : q.id == pid <;> simp [h]

theorem inv_createProduct (db : DB) (i : ProductInput) (hv : Inv db) :
    Inv (stepOp db (.createProduct i)) := by
  by_cases hval : productCreateValid i = true
  · simp only [stepOp, createProduct, if_pos hval]
    constructor
    · intro p hp
      rcases List.mem_cons.mp hp with h | h
      · rw [h]; exact Nat.lt_succ_self _
      · exact Nat.lt_succ_of_lt (hv.prodIds p h)
    · exact fun s hs => Nat.lt_succ_of_lt (hv.saleIds s hs)
    · rw [List.map_cons]
      refine List.Nodup.cons (fun hmem => ?_) hv.prodNodup
      obtain ⟨p, hp, hpid⟩ := List.mem_map.mp hmem
      exact absurd (hpid ▸ hv.prodIds p hp) (lt_irrefl _)
    · exact hv.saleNodup
    · exact fun pay hpay => Nat.lt_succ_of_lt (hv.payRef pay hpay)
    · exact fun mv hmv => Nat.lt_succ_of_lt (hv.moveRef mv hmv)
    · exact fun it hit => Nat.lt_succ_of_lt (hv.itemRef it hit)
    · exact hv.payPos
    · exact hv.paidNonneg
    · exact hv.paySumEq
    · exact hv.status
    · exact hv.invoiceBound
    · exact hv.invoiceDistinct
  · simp only [stepOp, createProduct, if_neg hval]
    exact hv

theorem inv_updateProduct (db : DB) (pid : Nat) (u : ProductUpdate) (hv : Inv db) :
    Inv (stepOp db (.updateProduct pid u)) := by
  simp only [stepOp, updateProduct]
  cases hf : db.products.find? (fun p => p.id == pid) with
  | none => exact hv
  | some p =>
    constructor
    · intro q' hq'
      obtain ⟨q, hq, rfl⟩ := List.mem_map.mp hq'
      rw [upd_id]
      exact hv.prodIds q hq
    · exact hv.saleIds
    · rw [map_map_eq _ _ _ (upd_id u pid)]
      exact hv.prodNodup
    · exact hv.saleNodup
    · exact hv.payRef
    · exact hv.moveRef
    · exact hv.itemRef
    · exact hv.payPos
    · exact hv.paidNonneg
    · exact hv.paySumEq
    · exact hv.status
    · exact hv.invoiceBound
    · exact hv.invoiceDistinct

theorem inv_deleteProduct (db : DB) (pid : Nat) (hv : Inv db) :
    Inv (stepOp db (.deleteProduct pid)) := by
  simp only [stepOp, deleteProduct]
  cases hf : db.products.find? (fun p => p.id == pid) with
  | none => exact hv
  | some p =>
    constructor
    · intro q' hq'
      obtain ⟨q, hq, rfl⟩ := List.mem_map.mp hq'
      rw [del_id]
      exact hv.prodIds q hq
    · exact hv.saleIds
    · rw [map_map_eq _ _ _ (del_id pid)]
      exact hv.prodNodup
    · exact hv.saleNodup
    · exact hv.payRef
    · exact hv.moveRef
    · exact hv.itemRef
    · exact hv.payPos
    · exact hv.paidNonneg
    · exact hv.paySumEq
    · exact hv.status
    · exact hv.invoiceBound
    · exact hv.invoiceDistinct

theorem inv_addStock (db : DB) (pid : Nat) (i : AddStockInput) (userId : String) (hv : Inv db) :
    Inv (stepOp db (.addStock pid i userId)) := by
  by_cases hval : addStockValid i = true
  · simp only [stepOp, addStock, if_pos hval]
    cases hf : db.products.find? (fun p => p.id == pid) with
    | none => exact hv
    | some p =>
      have hpid : pid < db.idCtr := by
        have hmem := List.mem_of_find?_eq_some hf
        have := List.find?_some hf
        have hpe : p.id = pid := by simpa using this
        exact hpe ▸ hv.prodIds p hmem
      constructor
      · intro q' hq'
        obtain ⟨q, hq, rfl⟩ := List.mem_map.mp hq'
        rw [stock_id]
        exact hv.prodIds q hq
      · exact hv.saleIds
      · rw [map_map_eq _ _ _ (stock_id pid i.qty)]
        exact hv.prodNodup
      · exact hv.saleNodup
      · exact hv.payRef
      · intro mv hmv
        rcases List.mem_cons.mp hmv with h | h
        · rw [h]; exact hpid
        · exact hv.moveRef mv h
      · exact hv.itemRef
      · exact hv.payPos
      · exact hv.paidNonneg
      · exact hv.paySumEq
      · exact hv.status
      · exact hv.invoiceBound
      · exact hv.invoiceDistinct
  · simp only [stepOp, addStock, if_neg hval]
    exact hv

theorem forall₂_mem_right {α β : Type} {R : α → β → Prop} {as : List α} {bs : List β}
    (h : List.Forall₂ R as bs) : ∀ b ∈ bs, ∃ a ∈ as, R a b := by
  induction h with
  | nil => intro b hb; exact absurd hb (by simp)
  | cons hR _ ih =>
    intro b hb
    rcases List.mem_cons.mp hb with h | h
    · exact ⟨_, by simp, h ▸ hR⟩
    · obtain ⟨a, ha, hab⟩ := ih b h
      exact ⟨a, by simp [ha], hab⟩

theorem saleReqValid_amountPaid {r : SaleReq} (h : saleReqValid r = true) : 0 ≤ r.amountPaid := by
  rw [saleReqValid] at h
  simp only [Bool.and_eq_true, decide_eq_true_eq] at h
  exact h.1.2

theorem saleReqValid_qty {r : SaleReq} (h : saleReqValid r = true) :
    ∀ i ∈ r.items, 1 ≤ i.qty := by
  rw [saleReqValid] at h
  simp only [Bool.and_eq_true, List.all_eq_true, decide_eq_true_eq] at h
  exact h.1.1

/-- What a successful `calcItemsAux` run over the batch-lookup result says
about the original product table. -/
theorem calcItems_resolve {db : DB} {r : SaleReq} {cs : List CalcItem}
    (hcalc : calcItemsAux (db.products.filter
      (fun p => (r.items.map (·.productId)).contains p.id)) r.items = .ok cs) :
    ∀ c ∈ cs, ∃ p ∈ db.products, p.id = c.productId := by
  intro c hc
  obtain ⟨i, _, p, hfind, _, hcr⟩ := forall₂_mem_right (calcItemsAux_ok _ hcalc) c hc
  have hp : p ∈ db.products :=
    (List.mem_filter.mp (List.mem_of_find?_eq_some hfind)).1
  have hpid : p.id = i.productId := by simpa using List.find?_some hfind
  exact ⟨p, hp, by rw [hcr]; exact hpid⟩

/-- Full pricing characterization of the priced lines. -/
theorem calcItems_char {db : DB} {r : SaleReq} {cs : List CalcItem}
    (hcalc : calcItemsAux (db.products.filter
      (fun p => (r.items.map (·.productId)).contains p.id)) r.items = .ok cs) :
    ∀ c ∈ cs, ∃ p ∈ db.products, p.id = c.productId ∧ c.unitPrice = p.sellPrice ∧
      c.lineTotal = c.unitPrice * c.qty := by
  intro c hc
  obtain ⟨i, _, p, hfind, _, hcr⟩ := forall₂_mem_right (calcItemsAux_ok _ hcalc) c hc
  have hp : p ∈ db.products :=
    (List.mem_filter.mp (List.mem_of_find?_eq_some hfind)).1
  have hpid : p.id = i.productId := by simpa using List.find?_some hfind
  subst hcr
  exact ⟨p, hp, hpid, rfl, rfl⟩

theorem inv_saleTxn (db : DB) (r : SaleReq) (y m : Nat) (u : String) (cs : List CalcItem)
    (hv : Inv db) (hval : saleReqValid r = true)
    (hcs : ∀ c ∈ cs, ∃ p ∈ db.products, p.id = c.productId) :
    Inv (saleTxn db r y m u cs).1 := by
  have h0 : 0 ≤ r.amountPaid := saleReqValid_amountPaid hval
  unfold saleTxn
  dsimp only
  constructor
  · intro q' hq'
    rw [foldl_decr] at hq'
    obtain ⟨q, hq, rfl⟩ := List.mem_map.mp hq'
    exact Nat.lt_succ_of_lt (hv.prodIds q hq)
  · intro s hs
    rcases List.mem_cons.mp hs with h | h
    · rw [h]; exact Nat.lt_succ_self _
    · exact Nat.lt_succ_of_lt (hv.saleIds s h)
  · dsimp only
    rw [foldl_decr,
      map_map_eq (fun q => { q with stockQty := q.stockQty - qtySumFor cs q.id })
        Product.id db.products (fun q => rfl)]
    exact hv.prodNodup
  · rw [List.map_cons]
    refine List.Nodup.cons (fun hmem => ?_) hv.saleNodup
    obtain ⟨s, hsm, hsid⟩ := List.mem_map.mp hmem
    exact absurd (hsid ▸ hv.saleIds s hsm) (lt_irrefl _)
  · intro pay hpay
    rcases List.mem_append.mp hpay with h | h
    · split at h
      · rcases List.mem_singleton.mp h with rfl
        exact Nat.lt_succ_self _
      · exact absurd h (by simp)
    · exact Nat.lt_succ_of_lt (hv.payRef pay h)
  · intro mv hmv
    rcases List.mem_append.mp hmv with h | h
    · obtain ⟨c, hc, rfl⟩ := List.mem_map.mp h
      obtain ⟨p, hp, hpid⟩ := hcs c hc
      exact Nat.lt_succ_of_lt (hpid ▸ hv.prodIds p hp)
    · exact Nat.lt_succ_of_lt (hv.moveRef mv h)
  · intro it hit
    rcases List.mem_append.mp hit with h | h
    · obtain ⟨c, hc, rfl⟩ := List.mem_map.mp h
      exact Nat.lt_succ_self _
    · exact Nat.lt_succ_of_lt (hv.itemRef it h)
  · intro pay hpay
    rcases List.mem_append.mp hpay with h | h
    · split at h
      · rcases List.mem_singleton.mp h with rfl
        simpa using by omega
      · exact absurd h (by simp)
    · exact hv.payPos pay h
  · intro s hs
    rcases List.mem_cons.mp hs with h | h
    · rw [h]; exact h0
    · exact hv.paidNonneg s h
  · intro s hs
    have hold : paySumL db.payments db.idCtr = 0 :=
      paySumL_zero _ _ (fun pay hp => Nat.ne_of_lt (hv.payRef pay hp))
    rcases List.mem_cons.mp hs with h | h
    · rw [h]
      show r.amountPaid = paySumL (_ ++ db.payments) db.idCtr
      rw [paySumL_append, hold]
      split
      · rw [paySumL_cons]
        simp only [if_pos rfl]
        show r.amountPaid = r.amountPaid + paySumL [] db.idCtr + 0
        simp [paySumL]
      · show r.amountPaid = paySumL [] db.idCtr + 0
        simp only [paySumL, List.filter_nil, List.map_nil, List.sum_nil, add_zero]
        omega
    · show s.amountPaid = paySumL (_ ++ db.payments) s.id
      rw [paySumL_append]
      have hz : paySumL (ite (0 < r.amountPaid)
          [{ saleId := db.idCtr, amount := r.amountPaid, method := r.method, refNo := none }]
          []) s.id = 0 := by
        split
        · exact paySumL_zero _ _ (by
            intro pay hp
            rcases List.mem_singleton.mp hp with rfl
            exact fun hc => absurd (hc ▸ hv.saleIds s h) (lt_irrefl _))
        · simp [paySumL]
      rw [hz, zero_add]
      exact hv.paySumEq s h
  · intro s hs
    rcases List.mem_cons.mp hs with h | h
    · rw [h]
      exact statusOk_calcStatus _ rfl h0
    · exact hv.status s h
  · intro s hs
    rcases List.mem_cons.mp hs with h | h
    · rw [h]
      show invSeqOf (mkInvoiceNo _ (db.invSeq + 1)) ≤ db.invSeq + 1
      rw [invSeqOf_mkInvoiceNo]
    · exact Nat.le_succ_of_le (hv.invoiceBound s h)
  · rw [List.pairwise_cons]
    refine ⟨fun b hb => ?_, hv.invoiceDistinct⟩
    show invSeqOf (mkInvoiceNo _ (db.invSeq + 1)) ≠ invSeqOf b.invoiceNo
    rw [invSeqOf_mkInvoiceNo]
    exact fun hc => absurd (hc ▸ hv.invoiceBound b hb) (by omega)

theorem inv_createSale (db : DB) (r : SaleReq) (y m : Nat) (u : String) (hv : Inv db) :
    Inv (stepOp db (.createSale r y m u)) := by
  simp only [stepOp]
  cases h : createSale db r y m u with
  | error e => exact hv
  | ok out =>
    obtain ⟨cs, hval, hlen, hcalc, hout⟩ := createSale_ok_elim h
    obtain ⟨db', s⟩ := out
    show Inv db'
    rw [show db' = (saleTxn db r y m u cs).1 from congrArg Prod.fst hout]
    exact inv_saleTxn db r y m u cs hv hval (calcItems_resolve hcalc)

theorem pay_upd_id (sale : Sale) (np : Int) (st : String) (s : Sale) :
    ((if s.id == sale.id then { s with amountPaid := np, paymentStatus := st } else s) : Sale).id
      = s.id := by
  by_cases h : s.id == sale.id <;> simp [h]

theorem pay_upd_invoiceNo (sale : Sale) (np : Int) (st : String) (s : Sale) :
    ((if s.id == sale.id then { s with amountPaid := np, paymentStatus := st } else s) :
      Sale).invoiceNo = s.invoiceNo := by
  by_cases h : s.id == sale.id <;> simp [h]

theorem paymentReqValid_amount {r : PaymentReq} (h : paymentReqValid r = true) :
    1 ≤ r.amount := by
  rw [paymentReqValid] at h
  simp only [Bool.and_eq_true, decide_eq_true_eq] at h
  exact h.1

theorem inv_applyPayment (db : DB) (r : PaymentReq) (hv : Inv db) :
    Inv (stepOp db (.applyPayment r)) := by
  by_cases hval : paymentReqValid r = true
  · simp only [stepOp, applyPayment, if_pos hval]
    cases hf : db.sales.find? (fun s => s.id == r.saleId) with
    | none => exact hv
    | some sale =>
      dsimp only
      by_cases hover : sale.grandTotal - paySum db r.saleId < r.amount
      · simp only [if_pos hover]; exact hv
      · simp only [if_neg hover]
        have hmem : sale ∈ db.sales := List.mem_of_find?_eq_some hf
        have hsid : sale.id = r.saleId := by simpa using List.find?_some hf
        have hamt : 1 ≤ r.amount := paymentReqValid_amount hval
        have hpaid : paySum db r.saleId = sale.amountPaid := by
          rw [paySum_eq_paySumL, ← hsid]
          exact (hv.paySumEq sale hmem).symm
        have hpaid0 : 0 ≤ sale.amountPaid := hv.paidNonneg sale hmem
        constructor
        · exact hv.prodIds
        · intro s' hs'
          obtain ⟨s, hs, rfl⟩ := List.mem_map.mp hs'
          rw [pay_upd_id]
          exact hv.saleIds s hs
        · exact hv.prodNodup
        · rw [map_map_eq _ _ _ (pay_upd_id sale _ _)]
          exact hv.saleNodup
        · intro pay hpay
          rcases List.mem_cons.mp hpay with h | h
          · rw [h]
            exact hsid ▸ hv.saleIds sale hmem
          · exact hv.payRef pay h
        · exact hv.moveRef
        · exact hv.itemRef
        · intro pay hpay
          rcases List.mem_cons.mp hpay with h | h
          · rw [h]; exact hamt
          · exact hv.payPos pay h
        · intro s' hs'
          obtain ⟨s, hs, rfl⟩ := List.mem_map.mp hs'
          by_cases hid : s.id == sale.id
          · rw [if_pos hid]
            show 0 ≤ paySum db r.saleId + r.amount
            omega
          · rw [if_neg hid]
            exact hv.paidNonneg s hs
        · intro s' hs'
          obtain ⟨s, hs, rfl⟩ := List.mem_map.mp hs'
          by_cases hid : s.id == sale.id
          · rw [if_pos hid]
            have hseq : s = sale :=
              List.inj_on_of_nodup_map hv.saleNodup hs hmem (by simpa using hid)
            subst hseq
            show paySum db r.saleId + r.amount = paySumL (_ :: db.payments) s.id
            rw [paySumL_cons, if_pos hsid.symm, hpaid, ← hsid]
            rw [← hv.paySumEq s hmem]
            dsimp only
            omega
          · rw [if_neg hid]
            show s.amountPaid = paySumL (_ :: db.payments) s.id
            rw [paySumL_cons, if_neg (by
              rw [hsid] at hid
              simpa using fun hc => hid (by simp [hc]))]
            rw [zero_add]
            exact hv.paySumEq s hs
        · intro s' hs'
          obtain ⟨s, hs, rfl⟩ := List.mem_map.mp hs'
          by_cases hid : s.id == sale.id
          · rw [if_pos hid]
            have hseq : s = sale :=
              List.inj_on_of_nodup_map hv.saleNodup hs hmem (by simpa using hid)
            subst hseq
            have hle : paySum db r.saleId + r.amount ≤ s.grandTotal := by omega
            unfold statusOk
            dsimp only
            split_ifs with hc
            · exact ⟨iff_of_true rfl hc, iff_of_false (by decide) (by omega),
                iff_of_false (by decide) (by omega)⟩
            · exact ⟨iff_of_false (by decide) (by omega),
                iff_of_true rfl (by constructor <;> omega),
                iff_of_false (by decide) (by omega)⟩
          · rw [if_neg hid]
            exact hv.status s hs
        · intro s' hs'
          obtain ⟨s, hs, rfl⟩ := List.mem_map.mp hs'
          rw [pay_upd_invoiceNo]
          exact hv.invoiceBound s hs
        · rw [List.pairwise_map]
          refine (hv.invoiceDistinct.imp_of_mem ?_)
          intro a b ha hb hne
          rw [pay_upd_invoiceNo, pay_upd_invoiceNo]
          exact hne
  · simp only [stepOp, applyPayment, if_neg hval]
    exact hv

theorem inv_saleAborted (db : DB) (hv : Inv db) : Inv (stepOp db .saleAborted) := by
  simp only [stepOp]
  constructor
  · exact hv.prodIds
  · exact hv.saleIds
  · exact hv.prodNodup
  · exact hv.saleNodup
  · exact hv.payRef
  · exact hv.moveRef
  · exact hv.itemRef
  · exact hv.payPos
  · exact hv.paidNonneg
  · exact hv.paySumEq
  · exact hv.status
  · exact fun s hs => Nat.le_succ_of_le (hv.invoiceBound s hs)
  · exact hv.invoiceDistinct

theorem inv_step (db : DB) (op : Op) (hv : Inv db) : Inv (stepOp db op) := by
  cases op with
  | createProduct i => exact inv_createProduct db i hv
  | updateProduct pid u => exact inv_updateProduct db pid u hv
  | deleteProduct pid => exact inv_deleteProduct db pid hv
  | addStock pid i userId => exact inv_addStock db pid i userId hv
  | createSale r y m userId => exact inv_createSale db r y m userId hv
  | applyPayment r => exact inv_applyPayment db r hv
  | saleAborted => exact inv_saleAborted db hv

theorem inv_foldl (t : List Op) : ∀ db, Inv db → Inv (t.foldl stepOp db) := by
  induction t with
  | nil => exact fun db h => h
  | cons op t ih => exact fun db h => ih _ (inv_step db op h)

/-- Every reachable store state satisfies the invariant. -/
theorem reachable_inv {db : DB} (h : Reachable db) : Inv db := by
  obtain ⟨t, rfl⟩ := h
  exact inv_foldl t DB.empty inv_empty

/-! ### The stock ledger invariant -/

/-- The spec's ledger reconciliation: on-hand = IN − OUT, per product. -/
def LedgerOk (db : DB) : Prop :=
  ∀ p ∈ db.products, p.stockQty = inSum db p.id - outSum db p.id

/-- Trace operations that do not inject stock outside the ledger: products are
created with zero initial stock and product edits never set `stockQty`
directly.  (Both are possible in the source, and both bypass the movement
ledger.) -/
def Op.ledgerSafe : Op → Prop
  | .createProduct i => i.stockQty = 0
  | .updateProduct _ u => u.stockQty = none
  | _ => True

/-- The OUT movements written by the sale transaction contribute exactly the
sold quantity per product, and nothing to the IN side. -/
theorem moveSumL_saleMoves (cs : List CalcItem) (sid : Nat) (u : String) (pid : Nat) :
    moveSumL (cs.map (fun c =>
        { productId := c.productId, type := "OUT", qty := c.qty, reason := "Sale",
          refId := some sid, unitCost := none, note := none, userId := u })) "OUT" pid
      = qtySumFor cs pid ∧
    moveSumL (cs.map (fun c =>
        { productId := c.productId, type := "OUT", qty := c.qty, reason := "Sale",
          refId := some sid, unitCost := none, note := none, userId := u })) "IN" pid
      = 0 := by
  induction cs with
  | nil => exact ⟨rfl, rfl⟩
  | cons c cs ih =>
    rw [List.map_cons]
    constructor
    · rw [moveSumL_cons, qtySumFor_cons, ih.1]
      by_cases h : c.productId = pid
      · rw [if_pos ⟨h, rfl⟩, if_pos h]
      · rw [if_neg (fun hc => h hc.1), if_neg h]
    · rw [moveSumL_cons, ih.2,
        if_neg (fun hc => absurd hc.2 (show ¬(("OUT" : String) = "IN") from by decide))]
      simp

theorem ledger_step (db : DB) (op : Op) (hv : Inv db) (hl : LedgerOk db)
    (hs : op.ledgerSafe) : LedgerOk (stepOp db op) := by
  cases op with
  | createProduct i =>
    by_cases hval : productCreateValid i = true
    · simp only [stepOp, createProduct, if_pos hval]
      intro p hp
      rcases List.mem_cons.mp hp with h | h
      · rw [h]
        show i.stockQty = inSum _ db.idCtr - outSum _ db.idCtr
        have hz : ∀ ty, moveSumL db.movements ty db.idCtr = 0 := fun ty =>
          moveSumL_zero _ _ _ (fun mv hmv => Nat.ne_of_lt (hv.moveRef mv hmv))
        show i.stockQty = moveSumL db.movements "IN" db.idCtr -
          moveSumL db.movements "OUT" db.idCtr
        rw [hz, hz, hs]
        rfl
      · exact hl p h
    · simp only [stepOp, createProduct, if_neg hval]
      exact hl
  | updateProduct pid u =>
    simp only [stepOp, updateProduct]
    cases hf : db.products.find? (fun p => p.id == pid) with
    | none => exact hl
    | some p =>
      intro q' hq'
      obtain ⟨q, hq, rfl⟩ := List.mem_map.mp hq'
      show _ = inSum _ _ - outSum _ _
      rw [show Op.ledgerSafe (.updateProduct pid u) = (u.stockQty = none) from rfl] at hs
      by_cases h : q.id == pid
      · rw [if_pos h]
        show (applyProductUpdate u q).stockQty =
          moveSumL db.movements "IN" (applyProductUpdate u q).id -
          moveSumL db.movements "OUT" (applyProductUpdate u q).id
        have hid : (applyProductUpdate u q).id = q.id := rfl
        have hst : (applyProductUpdate u q).stockQty = q.stockQty := by
          show u.stockQty.getD q.stockQty = q.stockQty
          rw [hs]
          rfl
        rw [hid, hst]
        exact hl q hq
      · rw [if_neg h]
        exact hl q hq
  | deleteProduct pid =>
    simp only [stepOp, deleteProduct]
    cases hf : db.products.find? (fun p => p.id == pid) with
    | none => exact hl
    | some p =>
      intro q' hq'
      obtain ⟨q, hq, rfl⟩ := List.mem_map.mp hq'
      by_cases h : q.id == pid
      · rw [if_pos h]
        exact hl q hq
      · rw [if_neg h]
        exact hl q hq
  | addStock pid i userId =>
    by_cases hval : addStockValid i = true
    · simp only [stepOp, addStock, if_pos hval]
      cases hf : db.products.find? (fun p => p.id == pid) with
      | none => exact hl
      | some p =>
        intro q' hq'
        obtain ⟨q, hq, rfl⟩ := List.mem_map.mp hq'
        by_cases h : q.id == pid
        · have hqp : q.id = pid := by simpa using h
          rw [if_pos h]
          show q.stockQty + i.qty = moveSumL (_ :: db.movements) "IN" q.id -
            moveSumL (_ :: db.movements) "OUT" q.id
          rw [moveSumL_cons, moveSumL_cons,
            if_pos ⟨hqp.symm, rfl⟩,
            if_neg (fun hc => absurd hc.2 (show ¬(("IN" : String) = "OUT") from by decide))]
          have := hl q hq
          rw [show inSum db q.id = moveSumL db.movements "IN" q.id from rfl] at this
          rw [show outSum db q.id = moveSumL db.movements "OUT" q.id from rfl] at this
          dsimp only
          omega
        · have hqp : ¬(q.id = pid) := by simpa using h
          rw [if_neg h]
          show q.stockQty = moveSumL (_ :: db.movements) "IN" q.id -
            moveSumL (_ :: db.movements) "OUT" q.id
          rw [moveSumL_cons, moveSumL_cons,
            if_neg (fun hc => hqp hc.1.symm),
            if_neg (fun hc => absurd hc.2 (show ¬(("IN" : String) = "OUT") from by decide))]
          have := hl q hq
          rw [show inSum db q.id = moveSumL db.movements "IN" q.id from rfl] at this
          rw [show outSum db q.id = moveSumL db.movements "OUT" q.id from rfl] at this
          omega
    · simp only [stepOp, addStock, if_neg hval]
      exact hl
  | createSale r y m userId =>
    simp only [stepOp]
    cases h : createSale db r y m userId with
    | error e => exact hl
    | ok out =>
      obtain ⟨cs, hval, hlen, hcalc, hout⟩ := createSale_ok_elim h
      obtain ⟨db', s⟩ := out
      show LedgerOk db'
      rw [show db' = (saleTxn db r y m userId cs).1 from congrArg Prod.fst hout]
      unfold saleTxn
      dsimp only
      intro q' hq'
      rw [foldl_decr] at hq'
      obtain ⟨q, hq, rfl⟩ := List.mem_map.mp hq'
      show q.stockQty - qtySumFor cs q.id = moveSumL (_ ++ db.movements) "IN" q.id -
        moveSumL (_ ++ db.movements) "OUT" q.id
      rw [moveSumL_append, moveSumL_append,
        (moveSumL_saleMoves cs db.idCtr userId q.id).1,
        (moveSumL_saleMoves cs db.idCtr userId q.id).2]
      have := hl q hq
      rw [show inSum db q.id = moveSumL db.movements "IN" q.id from rfl] at this
      rw [show outSum db q.id = moveSumL db.movements "OUT" q.id from rfl] at this
      omega
  | applyPayment r =>
    by_cases hval : paymentReqValid r = true
    · simp only [stepOp, applyPayment, if_pos hval]
      cases hf : db.sales.find? (fun s => s.id == r.saleId) with
      | none => exact hl
      | some sale =>
        dsimp only
        by_cases hover : sale.grandTotal - paySum db r.saleId < r.amount
        · simp only [if_pos hover]; exact hl
        · simp only [if_neg hover]
          exact hl
    · simp only [stepOp, applyPayment, if_neg hval]
      exact hl
  | saleAborted => exact hl

/-! ### The batch product lookup -/

theorem filter_ids_nodup (db : DB) (hwf : (db.products.map Product.id).Nodup)
    (pred : Product → Bool) :
    ((db.products.filter pred).map Product.id).Nodup :=
  ((List.filter_sublist db.products (p := pred)).map Product.id).nodup hwf

/-- When every requested id resolves and the ids are distinct, the batch lookup
returns exactly one product per id. -/
theorem filter_length_of_resolve (db : DB) (ids : List Nat)
    (hwf : (db.products.map Product.id).Nodup) (hnd : ids.Nodup)
    (hres : ∀ x ∈ ids, ∃ p ∈ db.products, p.id = x) :
    (db.products.filter (fun p => ids.contains p.id)).length = ids.length := by
  have hfn := filter_ids_nodup db hwf (fun p => ids.contains p.id)
  have hset : ((db.products.filter (fun p => ids.contains p.id)).map Product.id).toFinset
      = ids.toFinset := by
    ext x
    simp only [List.mem_toFinset, List.mem_map]
    constructor
    · rintro ⟨p, hp, rfl⟩
      have := (List.mem_filter.mp hp).2
      simpa using this
    · intro hx
      obtain ⟨p, hp, hpid⟩ := hres x hx
      exact ⟨p, List.mem_filter.mpr ⟨hp, by simp [hpid, hx]⟩, hpid⟩
  calc (db.products.filter (fun p => ids.contains p.id)).length
      = ((db.products.filter (fun p => ids.contains p.id)).map Product.id).length := by
        rw [List.length_map]
    _ = ((db.products.filter (fun p => ids.contains p.id)).map Product.id).toFinset.card :=
        (List.toFinset_card_of_nodup hfn).symm
    _ = ids.toFinset.card := by rw [hset]
    _ = ids.dedup.length := List.card_toFinset _
    _ = ids.length := by rw [hnd.dedup]

/-- When some requested id resolves to no product, the batch lookup comes back
short. -/
theorem filter_length_of_missing (db : DB) (ids : List Nat) (x : Nat)
    (hwf : (db.products.map Product.id).Nodup)
    (hx : x ∈ ids) (hmiss : ∀ p ∈ db.products, p.id ≠ x) :
    (db.products.filter (fun p => ids.contains p.id)).length < ids.length := by
  have hfn := filter_ids_nodup db hwf (fun p => ids.contains p.id)
  have hsub : ((db.products.filter (fun p => ids.contains p.id)).map Product.id).toFinset
      ⊆ ids.toFinset.erase x := by
    intro y hy
    obtain ⟨p, hp, rfl⟩ := List.mem_map.mp (List.mem_toFinset.mp hy)
    refine Finset.mem_erase.mpr ⟨hmiss p (List.mem_filter.mp hp).1, ?_⟩
    rw [List.mem_toFinset]
    have := (List.mem_filter.mp hp).2
    simpa using this
  have hxm : x ∈ ids.toFinset := List.mem_toFinset.mpr hx
  have h1 : (ids.toFinset.erase x).card = ids.toFinset.card - 1 :=
    Finset.card_erase_of_mem hxm
  have h2 : ids.toFinset.card ≤ ids.length := List.toFinset_card_le ids
  have h3 : 1 ≤ ids.toFinset.card := Finset.card_pos.mpr ⟨x, hxm⟩
  calc (db.products.filter (fun p => ids.contains p.id)).length
      = ((db.products.filter (fun p => ids.contains p.id)).map Product.id).length := by
        rw [List.length_map]
    _ = ((db.products.filter (fun p => ids.contains p.id)).map Product.id).toFinset.card :=
        (List.toFinset_card_of_nodup hfn).symm
    _ ≤ (ids.toFinset.erase x).card := Finset.card_le_card hsub
    _ < ids.length := by omega

/-- When the requested ids repeat, the batch lookup comes back short. -/
theorem filter_length_of_dup (db : DB) (ids : List Nat)
    (hwf : (db.products.map Product.id).Nodup) (hdup : ¬ ids.Nodup) :
    (db.products.filter (fun p => ids.contains p.id)).length < ids.length := by
  have hfn := filter_ids_nodup db hwf (fun p => ids.contains p.id)
  have hsub : ((db.products.filter (fun p => ids.contains p.id)).map Product.id).toFinset
      ⊆ ids.toFinset := by
    intro y hy
    obtain ⟨p, hp, rfl⟩ := List.mem_map.mp (List.mem_toFinset.mp hy)
    rw [List.mem_toFinset]
    have := (List.mem_filter.mp hp).2
    simpa using this
  have hded : ids.dedup.length < ids.length := by
    have hsl := ids.dedup_sublist
    rcases Nat.lt_or_ge ids.dedup.length ids.length with h | h
    · exact h
    · have heq : ids.dedup = ids :=
        hsl.eq_of_length (Nat.le_antisymm hsl.length_le h)
      exact absurd (heq ▸ ids.nodup_dedup) hdup
  calc (db.products.filter (fun p => ids.contains p.id)).length
      = ((db.products.filter (fun p => ids.contains p.id)).map Product.id).length := by
        rw [List.length_map]
    _ = ((db.products.filter (fun p => ids.contains p.id)).map Product.id).toFinset.card :=
        (List.toFinset_card_of_nodup hfn).symm
    _ ≤ ids.toFinset.card := Finset.card_le_card hsub
    _ = ids.dedup.length := List.card_toFinset _
    _ < ids.length := hded

/-! ### Error paths of createSale leave the store unchanged -/

theorem createSale_err_of_len (db : DB) (r : SaleReq) (y m : Nat) (u : String)
    (hval : saleReqValid r = true)
    (hne : (db.products.filter
      (fun p => (r.items.map (·.productId)).contains p.id)).length ≠
      (r.items.map (·.productId)).length) :
    createSale db r y m u = .error .productNotFound := by
  rw [createSale, if_pos hval]
  dsimp only
  rw [if_pos hne]

theorem createSale_err_of_calc (db : DB) (r : SaleReq) (y m : Nat) (u : String) (e : ApiErr)
    (hval : saleReqValid r = true)
    (hlen : (db.products.filter
      (fun p => (r.items.map (·.productId)).contains p.id)).length =
      (r.items.map (·.productId)).length)
    (herr : calcItemsAux (db.products.filter
      (fun p => (r.items.map (·.productId)).contains p.id)) r.items = .error e) :
    createSale db r y m u = .error e := by
  rw [createSale, if_pos hval]
  dsimp only
  rw [if_neg (by omega), herr]

theorem stepOp_createSale_error {db : DB} {r : SaleReq} {y m : Nat} {u : String} {e : ApiErr}
    (he : createSale db r y m u = .error e) :
    stepOp db (.createSale r y m u) = db := by
  simp only [stepOp, he]

theorem ledger_foldl (t : List Op) :
    ∀ db, Inv db → LedgerOk db → (∀ op ∈ t, op.ledgerSafe) →
      LedgerOk (t.foldl stepOp db) := by
  induction t with
  | nil => exact fun db _ hl _ => hl
  | cons op t ih =>
    intro db hv hl hsafe
    exact ih _ (inv_step db op hv) (ledger_step db op hv hl (hsafe op (by simp)))
      (fun o ho => hsafe o (by simp [ho]))

instance (op : Op) : Decidable op.ledgerSafe := by
  cases op <;> simp only [Op.ledgerSafe] <;> infer_instance

instance {ε α : Type} [DecidableEq ε] [DecidableEq α] : DecidableEq (Except ε α) := fun x y =>
  match x, y with
  | .ok a, .ok b =>
    if h : a = b then isTrue (by rw [h]) else isFalse (by intro hc; injection hc; exact h ‹_›)
  | .error a, .error b =>
    if h : a = b then isTrue (by rw [h]) else isFalse (by intro hc; injection hc; exact h ‹_›)
  | .ok _, .error _ => isFalse (fun hc => Except.noConfusion hc)
  | .error _, .ok _ => isFalse (fun hc => Except.noConfusion hc)

/-! ## The claims -/

def c1BadTrace : List Op :=
  [.createProduct ⟨"Urea", "Pupuk", "sak", 8000, 10000, 5, 5, true⟩]

/-- C1, counterexample: a product created with a nonzero initial `stockQty`
(here 5) gets no StockMovement row, so its on-hand quantity does not equal
IN − OUT: product creation does not establish the claimed invariant. -/
theorem C1_counterexample :
    ¬ ∀ p ∈ (execTrace c1BadTrace).products,
        p.stockQty = inSum (execTrace c1BadTrace) p.id - outSum (execTrace c1BadTrace) p.id := by
  decide

/-- C1 (amended): over every trace of requests in which products are created
with zero initial stock and product edits never write `stockQty` directly, each
product's on-hand quantity equals the sum of its IN movement quantities minus
the sum of its OUT movement quantities; add-stock and sale creation update the
counter and append matching movement rows inside their transaction, preserving
the equation. -/
theorem C1_stock_ledger (t : List Op) (hsafe : ∀ op ∈ t, op.ledgerSafe) :
    ∀ p ∈ (execTrace t).products,
      p.stockQty = inSum (execTrace t) p.id - outSum (execTrace t) p.id := by
  have : LedgerOk (execTrace t) := by
    rw [execTrace]
    exact ledger_foldl t DB.empty inv_empty (fun p hp => absurd hp (by simp [DB.empty])) hsafe
  exact this

def c1GoodTrace : List Op :=
  [.createProduct ⟨"Urea", "Pupuk", "sak", 8000, 10000, 0, 5, true⟩,
   .addStock 0 ⟨5, some 8000, none⟩ "u",
   .createSale ⟨none, none, [⟨0, 2⟩], 20000, "Tunai"⟩ 2025 3 "u"]

theorem C1_stock_ledger_witness :
    (∀ op ∈ c1GoodTrace, op.ledgerSafe) ∧
    (∀ p ∈ (execTrace c1GoodTrace).products,
      p.stockQty = inSum (execTrace c1GoodTrace) p.id - outSum (execTrace c1GoodTrace) p.id) ∧
    (execTrace c1GoodTrace).products.map Product.stockQty = [3] :=
  ⟨by decide, C1_stock_ledger c1GoodTrace (by decide), by decide⟩

/-- C2: no two committed sales ever share an invoice number — in particular
invoice numbers issued within the same calendar period are pairwise distinct —
because every sale transaction draws a fresh value from the global PostgreSQL
sequence and that value is recoverable from the invoice string.  Concurrency is
modelled as an arbitrary interleaving of atomic operations, including
`Op.saleAborted` steps standing for sale transactions that rolled back after
advancing the (non-transactional) sequence. -/
theorem C2_invoice_unique {db : DB} (h : Reachable db) :
    db.sales.Pairwise (fun a b => a.invoiceNo ≠ b.invoiceNo) :=
  (reachable_inv h).invoiceDistinct.imp
    (fun hne heq => hne (congrArg invSeqOf heq))

def c2Trace : List Op :=
  [.createProduct ⟨"Urea", "Pupuk", "sak", 8000, 10000, 9, 5, true⟩,
   .createSale ⟨none, none, [⟨0, 1⟩], 0, "Tunai"⟩ 2025 3 "a",
   .saleAborted,
   .createSale ⟨none, none, [⟨0, 1⟩], 10000, "Tunai"⟩ 2025 3 "b",
   .createSale ⟨none, none, [⟨0, 1⟩], 0, "Transfer"⟩ 2025 11 "c"]

theorem C2_invoice_unique_witness :
    Reachable (execTrace c2Trace) ∧
    (execTrace c2Trace).sales.Pairwise (fun a b => a.invoiceNo ≠ b.invoiceNo) ∧
    (execTrace c2Trace).sales.length = 3 :=
  ⟨⟨c2Trace, rfl⟩, C2_invoice_unique ⟨c2Trace, rfl⟩, by decide⟩

def c3BadTrace : List Op := [.createSale ⟨none, none, [], 0, "Tunai"⟩ 2025 3 "u"]

/-- C3, counterexample: a sale with `grandTotal = 0` (empty items list is
accepted by the schema) and `amountPaid = 0` is stored as `"Lunas"`/Paid, so
the claimed biconditional “Unpaid iff amountPaid = 0” fails on a reachable
state. -/
theorem C3_counterexample :
    ¬ ∀ s ∈ (execTrace c3BadTrace).sales,
        (s.paymentStatus = "Piutang" ↔ s.amountPaid = 0) := by
  decide

/-- C3 (amended): in every reachable state, every sale's settlement status is
the pure three-way function of `amountPaid` versus `grandTotal`:
Paid ("Lunas") iff `amountPaid ≥ grandTotal` (overpayment at creation is
accepted as Paid), Partial ("Sebagian") iff `0 < amountPaid < grandTotal`, and
Unpaid ("Piutang") iff `amountPaid = 0 < grandTotal` — the Unpaid arm
additionally requires `grandTotal > 0`, because a zero-total sale with zero
paid is stored as Paid. -/
theorem C3_status_rule {db : DB} (h : Reachable db) :
    ∀ s ∈ db.sales,
      (s.paymentStatus = "Lunas" ↔ s.grandTotal ≤ s.amountPaid) ∧
      (s.paymentStatus = "Sebagian" ↔ 0 < s.amountPaid ∧ s.amountPaid < s.grandTotal) ∧
      (s.paymentStatus = "Piutang" ↔ s.amountPaid = 0 ∧ 0 < s.grandTotal) :=
  fun s hs => (reachable_inv h).status s hs

def c3Trace : List Op :=
  [.createProduct ⟨"A", "Pupuk", "sak", 8000, 10000, 9, 5, true⟩,
   .createSale ⟨none, none, [⟨0, 1⟩], 10000, "Tunai"⟩ 2025 3 "u",
   .createSale ⟨none, none, [⟨0, 1⟩], 4000, "Tunai"⟩ 2025 3 "u",
   .createSale ⟨none, none, [⟨0, 1⟩], 0, "Tunai"⟩ 2025 3 "u",
   .applyPayment ⟨3, 2000, "Tunai", none⟩]

theorem C3_status_rule_witness :
    Reachable (execTrace c3Trace) ∧
    (∀ s ∈ (execTrace c3Trace).sales,
      (s.paymentStatus = "Lunas" ↔ s.grandTotal ≤ s.amountPaid) ∧
      (s.paymentStatus = "Sebagian" ↔ 0 < s.amountPaid ∧ s.amountPaid < s.grandTotal) ∧
      (s.paymentStatus = "Piutang" ↔ s.amountPaid = 0 ∧ 0 < s.grandTotal)) ∧
    (execTrace c3Trace).sales.map Sale.paymentStatus = ["Sebagian", "Sebagian", "Lunas"] :=
  ⟨⟨c3Trace, rfl⟩, C3_status_rule ⟨c3Trace, rfl⟩, by decide⟩

/-- C4: in every reachable state, every sale's stored `amountPaid` equals the
sum of the Payment rows referencing it; sale creation establishes this (one
Payment row exactly when the initial `amountPaid > 0`) and payment application
preserves it by writing the Payment row and the `amountPaid` update in one
transaction. -/
theorem C4_amountPaid_eq_paySum {db : DB} (h : Reachable db) :
    ∀ s ∈ db.sales, s.amountPaid = paySum db s.id :=
  fun s hs => (reachable_inv h).paySumEq s hs

def c4Trace : List Op :=
  [.createProduct ⟨"A", "Pupuk", "sak", 8000, 10000, 9, 5, true⟩,
   .createSale ⟨none, none, [⟨0, 2⟩], 10000, "Tunai"⟩ 2025 3 "u",
   .applyPayment ⟨1, 6000, "Transfer", some "T1"⟩,
   .createSale ⟨none, none, [⟨0, 1⟩], 0, "Tunai"⟩ 2025 3 "u"]

theorem C4_amountPaid_eq_paySum_witness :
    Reachable (execTrace c4Trace) ∧
    (∀ s ∈ (execTrace c4Trace).sales, s.amountPaid = paySum (execTrace c4Trace) s.id) ∧
    (execTrace c4Trace).sales.map Sale.amountPaid = [0, 16000] ∧
    (execTrace c4Trace).payments.length = 2 :=
  ⟨⟨c4Trace, rfl⟩, C4_amountPaid_eq_paySum ⟨c4Trace, rfl⟩, by decide, by decide⟩

/-- C5: applying a payment whose amount strictly exceeds
`due = grandTotal − sum(existing payments)` is rejected as an overpayment and
leaves the store (hence the sale's `amountPaid`/status, and the Payment table)
unchanged; a payment against an unresolvable sale id fails with a not-found
error, also leaving the store unchanged. -/
theorem C5_payment_guards (db : DB) (r : PaymentReq) (hval : paymentReqValid r = true) :
    (db.sales.find? (fun s => s.id == r.saleId) = none →
      applyPayment db r = .error .saleNotFound ∧ stepOp db (.applyPayment r) = db) ∧
    (∀ sale, db.sales.find? (fun s => s.id == r.saleId) = some sale →
      sale.grandTotal - paySum db r.saleId < r.amount →
      applyPayment db r = .error .overpayment ∧ stepOp db (.applyPayment r) = db) := by
  constructor
  · intro hf
    have he : applyPayment db r = .error .saleNotFound := by
      rw [applyPayment, if_pos hval, hf]
    exact ⟨he, by simp only [stepOp, he]⟩
  · intro sale hf hover
    have he : applyPayment db r = .error .overpayment := by
      rw [applyPayment, if_pos hval, hf]
      dsimp only
      rw [if_pos hover]
    exact ⟨he, by simp only [stepOp, he]⟩

def c5Trace : List Op :=
  [.createProduct ⟨"A", "Pupuk", "sak", 8000, 10000, 9, 5, true⟩,
   .createSale ⟨none, none, [⟨0, 1⟩], 4000, "Tunai"⟩ 2025 3 "u"]

def c5Db : DB := execTrace c5Trace

def c5Sale : Sale :=
  (c5Db.sales.find? (fun s => s.id == 1)).getD ⟨0, "", none, 0, 0, "", none⟩

def c5Over : PaymentReq := ⟨1, 6001, "Tunai", none⟩

def c5Missing : PaymentReq := ⟨99, 500, "Tunai", none⟩

theorem C5_payment_guards_witness :
    paymentReqValid c5Over = true ∧ paymentReqValid c5Missing = true ∧
    c5Sale.grandTotal - paySum c5Db c5Over.saleId < c5Over.amount ∧
    (applyPayment c5Db c5Over = .error .overpayment ∧
      stepOp c5Db (.applyPayment c5Over) = c5Db) ∧
    (applyPayment c5Db c5Missing = .error .saleNotFound ∧
      stepOp c5Db (.applyPayment c5Missing) = c5Db) :=
  ⟨by decide, by decide, by decide,
   (C5_payment_guards c5Db c5Over (by decide)).2 c5Sale (by decide) (by decide),
   (C5_payment_guards c5Db c5Missing (by decide)).1 (by decide)⟩

/-- C6: a sale-creation request whose product ids all resolve and are distinct,
but in which some line asks for more than the resolved product's on-hand
quantity, fails with `InsufficientStock` naming a genuinely short product, and
the store is left completely unchanged (no stock change, no movement, no
Sale/SaleItem/Payment row). -/
theorem C6_insufficient_stock (db : DB) (r : SaleReq) (y m : Nat) (u : String)
    (hv : Inv db) (hval : saleReqValid r = true)
    (hres : ∀ i ∈ r.items, ∃ p ∈ db.products, p.id = i.productId)
    (hnd : (r.items.map (·.productId)).Nodup)
    (hbad : ∃ i ∈ r.items, ∀ p ∈ db.products, p.id = i.productId → p.stockQty < i.qty) :
    ∃ p, p ∈ db.products ∧ (∃ i ∈ r.items, p.id = i.productId ∧ p.stockQty < i.qty) ∧
      createSale db r y m u = .error (.insufficientStock p.name) ∧
      stepOp db (.createSale r y m u) = db := by
  have hlen : (db.products.filter
      (fun p => (r.items.map (·.productId)).contains p.id)).length =
      (r.items.map (·.productId)).length :=
    filter_length_of_resolve db _ hv.prodNodup hnd (by
      intro x hx
      obtain ⟨i, hi, rfl⟩ := List.mem_map.mp hx
      exact hres i hi)
  have hres' : ∀ i ∈ r.items, ∃ p ∈ db.products.filter
      (fun p => (r.items.map (·.productId)).contains p.id), p.id = i.productId := by
    intro i hi
    obtain ⟨p, hp, hpid⟩ := hres i hi
    have hmem : i.productId ∈ r.items.map (·.productId) := List.mem_map.mpr ⟨i, hi, rfl⟩
    exact ⟨p, List.mem_filter.mpr ⟨hp, by simp [hpid, hmem]⟩, hpid⟩
  have hbad' : ∃ i ∈ r.items, ∀ p ∈ db.products.filter
      (fun p => (r.items.map (·.productId)).contains p.id),
      p.id = i.productId → p.stockQty < i.qty := by
    obtain ⟨i, hi, hb⟩ := hbad
    exact ⟨i, hi, fun p hp => hb p (List.mem_filter.mp hp).1⟩
  obtain ⟨p, i, hpfl, hi, hpid, hlt, herr⟩ :=
    calcItemsAux_insufficient _ r.items hres' hbad'
  have he := createSale_err_of_calc db r y m u _ hval hlen herr
  exact ⟨p, (List.mem_filter.mp hpfl).1, ⟨i, hi, hpid, hlt⟩, he, stepOp_createSale_error he⟩

def c6Db : DB := execTrace [.createProduct ⟨"Urea", "Pupuk", "sak", 8000, 10000, 3, 5, true⟩]

def c6Req : SaleReq := ⟨none, none, [⟨0, 5⟩], 0, "Tunai"⟩

theorem C6_insufficient_stock_witness :
    c6Db.products.map Product.stockQty = [3] ∧
    (∃ p, p ∈ c6Db.products ∧ (∃ i ∈ c6Req.items, p.id = i.productId ∧ p.stockQty < i.qty) ∧
      createSale c6Db c6Req 2025 3 "u" = .error (.insufficientStock p.name) ∧
      stepOp c6Db (.createSale c6Req 2025 3 "u") = c6Db) :=
  ⟨by decide,
   C6_insufficient_stock c6Db c6Req 2025 3 "u" (reachable_inv ⟨_, rfl⟩)
     (by decide) (by decide) (by decide) (by decide)⟩

def c7Db : DB :=
  execTrace [.createProduct ⟨"Urea", "Pupuk", "sak", 8000, 10000, 10, 5, true⟩,
    .deleteProduct 0]

def c7Req : SaleReq := ⟨none, none, [⟨0, 1⟩], 0, "Tunai"⟩

/-- C7, counterexample: the batch lookup of `POST /api/v1/sales` does not
filter on `isActive`, so a soft-deleted (inactive) product is still sellable:
with every product inactive, the request does not fail with ProductNotFound —
it succeeds and creates a sale. -/
theorem C7_counterexample :
    (∀ p ∈ c7Db.products, p.isActive = false) ∧
    createSale c7Db c7Req 2025 3 "u" ≠ .error .productNotFound ∧
    (stepOp c7Db (.createSale c7Req 2025 3 "u")).sales.length = 1 := by
  decide

/-- C7 (amended): sale creation fails with the ProductNotFound error, changing
nothing, whenever some requested product id is absent from the Product table;
inactive products are not excluded by the lookup, so an existing-but-inactive
product does not trigger this error (it is sellable, see the counterexample).
The same error message can also arise without an absent id, from duplicated
lines of a present product (settled separately under C10). -/
theorem C7_product_not_found (db : DB) (r : SaleReq) (y m : Nat) (u : String)
    (hv : Inv db) (hval : saleReqValid r = true)
    (hmiss : ∃ i ∈ r.items, ∀ p ∈ db.products, p.id ≠ i.productId) :
    createSale db r y m u = .error .productNotFound ∧
      stepOp db (.createSale r y m u) = db := by
  obtain ⟨i, hi, hm⟩ := hmiss
  have hlt := filter_length_of_missing db (r.items.map (·.productId)) i.productId
    hv.prodNodup (List.mem_map.mpr ⟨i, hi, rfl⟩) hm
  have he := createSale_err_of_len db r y m u hval (by omega)
  exact ⟨he, stepOp_createSale_error he⟩

def c7MissReq : SaleReq := ⟨none, none, [⟨99, 1⟩], 0, "Tunai"⟩

theorem C7_product_not_found_witness :
    saleReqValid c7MissReq = true ∧
    (createSale c7Db c7MissReq 2025 3 "u" = .error .productNotFound ∧
      stepOp c7Db (.createSale c7MissReq 2025 3 "u") = c7Db) :=
  ⟨by decide,
   C7_product_not_found c7Db c7MissReq 2025 3 "u" (reachable_inv ⟨_, rfl⟩)
     (by decide) (by decide)⟩

/-- C8: in every successfully created sale, each created SaleItem's unit price
is the referenced product's current sell price (taken server-side; the request
carries no price field at all), its line total is unit price × quantity, and
the sale's grandTotal is the sum of its items' line totals. -/
theorem C8_pricing (db : DB) (r : SaleReq) (y m : Nat) (u : String) (out : DB × Sale)
    (hv : Inv db) (h : createSale db r y m u = .ok out) :
    (∀ it ∈ out.1.saleItems, it.saleId = out.2.id →
      ∃ p ∈ db.products, p.id = it.productId ∧ it.unitPrice = p.sellPrice ∧
        it.lineTotal = it.unitPrice * it.qty) ∧
    out.2.grandTotal =
      ((out.1.saleItems.filter (fun it => it.saleId == out.2.id)).map (·.lineTotal)).sum := by
  obtain ⟨cs, hval, hlen, hcalc, hout⟩ := createSale_ok_elim h
  subst hout
  unfold saleTxn
  dsimp only
  constructor
  · intro it hit hsid
    rcases List.mem_append.mp hit with hnew | hold
    · obtain ⟨c, hc, rfl⟩ := List.mem_map.mp hnew
      obtain ⟨p, hp, hpid, hup, hlt⟩ := calcItems_char hcalc c hc
      exact ⟨p, hp, hpid, hup, hlt⟩
    · have := hv.itemRef it hold
      rw [hsid] at this
      exact absurd this (lt_irrefl _)
  · rw [List.filter_append]
    have h1 : (cs.map (fun c =>
        ({ saleId := db.idCtr, productId := c.productId, qty := c.qty,
           unitPrice := c.unitPrice, lineTotal := c.lineTotal } : SaleItem))).filter
        (fun it => it.saleId == db.idCtr) =
        cs.map (fun c =>
        ({ saleId := db.idCtr, productId := c.productId, qty := c.qty,
           unitPrice := c.unitPrice, lineTotal := c.lineTotal } : SaleItem)) := by
      rw [List.filter_eq_self]
      intro a ha
      obtain ⟨c, hc, rfl⟩ := List.mem_map.mp ha
      simp
    have h2 : db.saleItems.filter (fun it => it.saleId == db.idCtr) = [] := by
      rw [List.filter_eq_nil_iff]
      intro it hit
      simp only [beq_iff_eq]
      exact Nat.ne_of_lt (hv.itemRef it hit)
    rw [h1, h2, List.append_nil, List.map_map]
    rfl

def c8Db : DB :=
  execTrace [.createProduct ⟨"A", "Pupuk", "sak", 8000, 10000, 10, 5, true⟩,
    .createProduct ⟨"B", "Obat", "liter", 4000, 5000, 10, 5, true⟩]

def c8Req : SaleReq := ⟨none, none, [⟨0, 2⟩, ⟨1, 1⟩], 25000, "Tunai"⟩

def c8Out : DB × Sale :=
  (createSale c8Db c8Req 2025 3 "u").toOption.getD (DB.empty, ⟨0, "", none, 0, 0, "", none⟩)

theorem C8_pricing_witness :
    createSale c8Db c8Req 2025 3 "u" = .ok c8Out ∧
    c8Out.2.grandTotal = 25000 ∧ c8Out.2.paymentStatus = "Lunas" ∧
    ((∀ it ∈ c8Out.1.saleItems, it.saleId = c8Out.2.id →
      ∃ p ∈ c8Db.products, p.id = it.productId ∧ it.unitPrice = p.sellPrice ∧
        it.lineTotal = it.unitPrice * it.qty) ∧
    c8Out.2.grandTotal =
      ((c8Out.1.saleItems.filter (fun it => it.saleId == c8Out.2.id)).map (·.lineTotal)).sum) :=
  ⟨by decide, by decide, by decide,
   C8_pricing c8Db c8Req 2025 3 "u" c8Out (reachable_inv ⟨_, rfl⟩) (by decide)⟩

def c9Req : SaleReq := ⟨none, none, [], 0, "Tunai"⟩

/-- C9, counterexample: the zod schema of `POST /api/v1/sales` puts no minimum
length on `items`, so a request with an empty items list is not rejected as a
validation error — it creates a sale (with no items and grandTotal 0). -/
theorem C9_counterexample :
    createSale DB.empty c9Req 2025 3 "u" ≠ .error .validation ∧
    (stepOp DB.empty (.createSale c9Req 2025 3 "u")).sales.length = 1 := by
  decide

/-- C9 (amended): sale creation accepts an empty items list: a schema-valid
request with `items = []` succeeds and creates a sale with grandTotal 0 and
status `"Lunas"`, adding no sale items, touching no product stock and writing
no movement. -/
theorem C9_empty_items (db : DB) (r : SaleReq) (y m : Nat) (u : String)
    (hval : saleReqValid r = true) (hempty : r.items = []) :
    ∃ out : DB × Sale, createSale db r y m u = .ok out ∧ out.2.grandTotal = 0 ∧
      out.2.paymentStatus = "Lunas" ∧ out.1.saleItems = db.saleItems ∧
      out.1.products = db.products ∧ out.1.movements = db.movements := by
  have he : createSale db r y m u = .ok (saleTxn db r y m u []) := by
    rw [createSale, if_pos hval, hempty]
    dsimp only
    have hf : db.products.filter
        (fun p => (List.map (fun i => i.productId) ([] : List SaleLine)).contains p.id) = [] :=
      List.filter_eq_nil_iff.mpr (fun a _ h => nomatch h)
    rw [hf]
    rw [if_neg (by simp)]
    rfl
  refine ⟨saleTxn db r y m u [], he, rfl, ?_, rfl, rfl, rfl⟩
  show calcStatus r.amountPaid (List.map (fun c => c.lineTotal) ([] : List CalcItem)).sum
    = "Lunas"
  rw [calcStatus]
  exact if_pos (by simpa using saleReqValid_amountPaid hval)

def c9Db : DB := execTrace [.createProduct ⟨"A", "Pupuk", "sak", 8000, 10000, 10, 5, true⟩]

def c9wReq : SaleReq := ⟨none, none, [], 7000, "Tunai"⟩

theorem C9_empty_items_witness :
    saleReqValid c9wReq = true ∧ c9wReq.items = [] ∧
    (∃ out : DB × Sale, createSale c9Db c9wReq 2025 3 "u" = .ok out ∧ out.2.grandTotal = 0 ∧
      out.2.paymentStatus = "Lunas" ∧ out.1.saleItems = c9Db.saleItems ∧
      out.1.products = c9Db.products ∧ out.1.movements = c9Db.movements) :=
  ⟨by decide, rfl, C9_empty_items c9Db c9wReq 2025 3 "u" (by decide) rfl⟩

/-- C10: a sale-creation request that repeats a productId on two or more lines
always fails with the product-not-found error (the batch lookup returns fewer
products than requested ids) and leaves the store unchanged, regardless of the
product's existence, activity or stock. -/
theorem C10_duplicate_lines (db : DB) (r : SaleReq) (y m : Nat) (u : String)
    (hv : Inv db) (hval : saleReqValid r = true)
    (hdup : ¬ (r.items.map (·.productId)).Nodup) :
    createSale db r y m u = .error .productNotFound ∧
      stepOp db (.createSale r y m u) = db := by
  have hlt := filter_length_of_dup db (r.items.map (·.productId)) hv.prodNodup hdup
  have he := createSale_err_of_len db r y m u hval (by omega)
  exact ⟨he, stepOp_createSale_error he⟩

def c10Db : DB :=
  execTrace [.createProduct ⟨"A", "Pupuk", "sak", 500, 1000, 100, 5, true⟩]

def c10Req : SaleReq := ⟨none, none, [⟨0, 1⟩, ⟨0, 2⟩], 0, "Tunai"⟩

theorem C10_duplicate_lines_witness :
    (∃ p ∈ c10Db.products, p.isActive = true ∧ 3 ≤ p.stockQty) ∧
    ¬ (c10Req.items.map (·.productId)).Nodup ∧
    (createSale c10Db c10Req 2025 3 "u" = .error .productNotFound ∧
      stepOp c10Db (.createSale c10Req 2025 3 "u") = c10Db) :=
  ⟨by decide, by decide,
   C10_duplicate_lines c10Db c10Req 2025 3 "u" (reachable_inv ⟨_, rfl⟩)
     (by decide) (by decide)⟩

end POS
